import Mathlib

/-!
Verification of the export engine of the DiscordChatExporterTypescript
repository against its natural-language specification.  The TypeScript
source is shallowly embedded: classes become structures, methods become
functions, JavaScript strings are Lean strings manipulated through their
character lists, and fallible operations return `Option`.
-/

set_option maxHeartbeats 1000000

namespace DCE

/-- ASCII whitespace test, modelling the JavaScript regex class `\s`
restricted to the ASCII range used by this development. -/
def isJsSpace (c : Char) : Bool :=
  c = ' ' || c = '\t' || c = '\n' || c = '\r' || c = '\x0b' || c = '\x0c'

/-- Lower-case one character, modelling `String.prototype.toLowerCase` on
the ASCII range. -/
def toLowerChar (c : Char) : Char :=
  if 'A' ≤ c && c ≤ 'Z' then Char.ofNat (c.toNat + 32) else c

/-- Lower-case a character list. -/
def lowerChars (cs : List Char) : List Char := cs.map toLowerChar

/-- Lower-case a string. -/
def lowerStr (s : String) : String := String.mk (lowerChars s.toList)

/-- Check that `needle` occurs at the start of `hay`. -/
def listStartsWith : List Char → List Char → Bool
  | _, [] => true
  | [], _ :: _ => false
  | a :: as, b :: bs => a == b && listStartsWith as bs

/-- Substring containment, modelling `String.prototype.includes`. -/
def listContainsSub (hay needle : List Char) : Bool :=
  match hay with
  | [] => listStartsWith [] needle
  | _ :: t => listStartsWith hay needle || listContainsSub t needle

/-- Check that `needle` occurs at the end of `hay`, modelling
`String.prototype.endsWith`. -/
def listEndsWith (hay needle : List Char) : Bool :=
  listStartsWith hay.reverse needle.reverse

/-- Decimal digit character for a digit value below ten. -/
def digitChar (d : Nat) : Char := Char.ofNat (48 + d)

/-- Decimal representation with explicit fuel so that the definition is
structurally recursive; `fuel` larger than `n` is always enough because
`n / 10 < n` for `n ≥ 10`. -/
def natToCharsFuel : Nat → Nat → List Char
  | 0, _ => []
  | fuel + 1, n =>
    if n < 10 then [digitChar n]
    else natToCharsFuel fuel (n / 10) ++ [digitChar (n % 10)]

/-- Decimal representation of a natural number, modelling
`BigInt.prototype.toString` for non-negative values. -/
def natToChars (n : Nat) : List Char := natToCharsFuel (n + 1) n

/-- Decimal representation of an integer, modelling
`BigInt.prototype.toString` (used by `Snowflake.toString`). -/
def intToChars (v : Int) : List Char :=
  if v < 0 then '-' :: natToChars v.natAbs else natToChars v.natAbs

/-- String form of `natToChars`. -/
def natToStr (n : Nat) : String := String.mk (natToChars n)

/-- String form of `intToChars`. -/
def intToStr (v : Int) : String := String.mk (intToChars v)

/-- Discord user as needed by the filter engine and member cache
(`User` in `src/src/discord/data/user.ts`): snowflake id, username,
full name and resolved avatar url. -/
structure MUser where
  id : Nat
  name : String
  fullName : String
  avatarUrl : String
  deriving DecidableEq

/-- Message attachment; only the file name is consulted by the code
under verification (`Attachment` in the data model). -/
structure Attachment where
  fileName : String
  deriving DecidableEq

/-- Message reaction; the filter engine consults the emoji code and
name (`Reaction` in the data model). -/
structure Reaction where
  emojiCode : String
  emojiName : String
  deriving DecidableEq

/-- Discord embed (`Embed` in `src/unnamed/part_004`).  Fields that the
verified code only passes through are kept with simplified payload
types: `EmbedImage`, `EmbedVideo`, `EmbedAuthor`, `EmbedField` and
`EmbedFooter` values are represented by identifiers. -/
structure Embed where
  title : Option String
  kind : Option String
  url : Option String
  timestamp : Option String
  color : Option Nat
  author : Option Nat
  description : Option String
  fields : List Nat
  thumbnail : Option Nat
  image : Option Nat
  images : List Nat
  video : Option Nat
  footer : Option Nat
  deriving DecidableEq

/-- Copy of an embed with a replaced image list
(`Embed.withImages` in `src/unnamed/part_004`). -/
def Embed.withImages (e : Embed) (images : List Nat) : Embed :=
  { e with images := images }

/-- Discord message restricted to the fields consulted by the verified
code (`Message` in `src/packages/core/src/discord/data/message.ts`).
`byteSize` abstracts the number of bytes a writer appends for the
message, used only by the byte-budget partition limit. -/
structure Msg where
  id : Nat
  kind : Nat
  hasInteraction : Bool
  tsMillis : Int
  author : MUser
  content : String
  attachments : List Attachment
  embeds : List Embed
  stickers : List Nat
  reactions : List Reaction
  mentionedUsers : List MUser
  isPinned : Bool
  byteSize : Nat
  deriving DecidableEq

/-- System-notification test: message kinds between `RecipientAdd` (1)
and `ThreadCreated` (18), from the `Message` constructor. -/
def Msg.isSystemNotification (m : Msg) : Bool :=
  1 ≤ m.kind && m.kind ≤ 18

/-- Reply test: message kind `Reply` (19), from the `Message`
constructor. -/
def Msg.isReply (m : Msg) : Bool :=
  m.kind = 19

/-- Reply-like test: an actual reply or an application interaction
(`Message.isReplyLike`). -/
def Msg.isReplyLike (m : Msg) : Bool :=
  m.isReply || m.hasInteraction

/-- Kinds of content tested by a `has:` filter (`HasFilterKind` in
`src/src/exporting/filtering/message-filter.ts`). -/
inductive HasKind where
  | link | embed | file | video | image | sound | sticker | invite | mention | pin
  deriving DecidableEq

/-- Filter AST produced by the filter parser.  Each constructor embeds
one `MessageFilter` subclass of
`src/src/exporting/filtering/message-filter.ts`; `binary` carries
`true` for an `and` node and `false` for an `or` node, and `fromUser`
embeds `FromMessageFilter` (`from` is reserved in Lean). -/
inductive MessageFilter where
  | null
  | negated (inner : MessageFilter)
  | binary (first second : MessageFilter) (isAnd : Bool)
  | contains (text : String)
  | fromUser (value : String)
  | mentions (value : String)
  | has (kind : HasKind)
  | reaction (emoji : String)
  deriving DecidableEq

/-- Combinator `MessageFilter.and`. -/
def MessageFilter.and (f other : MessageFilter) : MessageFilter :=
  .binary f other true

/-- Combinator `MessageFilter.or`. -/
def MessageFilter.or (f other : MessageFilter) : MessageFilter :=
  .binary f other false

/-- Combinator `MessageFilter.negate`. -/
def MessageFilter.negate (f : MessageFilter) : MessageFilter :=
  .negated f

/-- Match of a user against a filter value, shared by the `from:` and
`mentions:` filters: snowflake id, name or full name, the latter two
case-insensitively (the filter value is lower-cased at construction). -/
def userFilterMatch (u : MUser) (value : String) : Bool :=
  natToStr u.id == lowerStr value
    || lowerStr u.name == lowerStr value
    || lowerStr u.fullName == lowerStr value

/-- Match of the regex `https?:\/\/\S+` (case-insensitive) at the head
of an already lower-cased character list. -/
def linkAt (cs : List Char) : Bool :=
  (listStartsWith cs ("http://".toList)
    && (match cs.drop 7 with | [] => false | c :: _ => !isJsSpace c))
  || (listStartsWith cs ("https://".toList)
    && (match cs.drop 8 with | [] => false | c :: _ => !isJsSpace c))

/-- Word character in lower-cased text, modelling the regex class `\w`
under the case-insensitive flag. -/
def isWordCharLower (c : Char) : Bool :=
  ('a' ≤ c && c ≤ 'z') || ('0' ≤ c && c ≤ '9') || c = '_'

/-- Match of the invite regex
`discord\.gg\/\w+|discord(?:app)?\.com\/invite\/\w+` (case-insensitive)
at the head of an already lower-cased character list. -/
def inviteAt (cs : List Char) : Bool :=
  (listStartsWith cs ("discord.gg/".toList)
    && (match cs.drop 11 with | [] => false | c :: _ => isWordCharLower c))
  || (listStartsWith cs ("discordapp.com/invite/".toList)
    && (match cs.drop 22 with | [] => false | c :: _ => isWordCharLower c))
  || (listStartsWith cs ("discord.com/invite/".toList)
    && (match cs.drop 19 with | [] => false | c :: _ => isWordCharLower c))

/-- Regex `test`: does the pattern recognised by `p` match at some
position of the character list. -/
def anySuffix (p : List Char → Bool) : List Char → Bool
  | [] => p []
  | c :: t => p (c :: t) || anySuffix p t

/-- Attachment file-name extensions treated as video by `has:video`. -/
def videoExtensions : List String := [".mp4", ".mov", ".avi", ".mkv", ".webm", ".wmv"]

/-- Attachment file-name extensions treated as image by `has:image`. -/
def imageExtensions : List String := [".jpg", ".jpeg", ".png", ".gif", ".webp", ".bmp"]

/-- Attachment file-name extensions treated as audio by `has:sound`. -/
def audioExtensions : List String := [".mp3", ".wav", ".ogg", ".flac", ".m4a", ".aac"]

/-- Does some attachment file name end (case-insensitively) in one of
the given extensions. -/
def attachmentWithExtension (exts : List String) (m : Msg) : Bool :=
  m.attachments.any fun a =>
    exts.any fun e => listEndsWith (lowerChars a.fileName.toList) e.toList

/-- Evaluation of `HasMessageFilter.isMatch` for each kind. -/
def hasKindMatch (k : HasKind) (m : Msg) : Bool :=
  match k with
  | .link => anySuffix linkAt (lowerChars m.content.toList) || m.embeds.any (·.url.isSome)
  | .embed => m.embeds.length > 0
  | .file => m.attachments.length > 0
  | .video => attachmentWithExtension videoExtensions m || m.embeds.any (·.video.isSome)
  | .image =>
      attachmentWithExtension imageExtensions m
        || m.embeds.any (fun e => e.image.isSome || e.thumbnail.isSome)
  | .sound => attachmentWithExtension audioExtensions m
  | .sticker => m.stickers.length > 0
  | .invite => anySuffix inviteAt (lowerChars m.content.toList)
  | .mention => m.mentionedUsers.length > 0
  | .pin => m.isPinned

/-- Evaluation of `MessageFilter.isMatch` over the filter AST. -/
def MessageFilter.isMatch : MessageFilter → Msg → Bool
  | .null, _ => true
  | .negated f, m => !(f.isMatch m)
  | .binary f g isAnd, m =>
      if isAnd then f.isMatch m && g.isMatch m else f.isMatch m || g.isMatch m
  | .contains t, m => listContainsSub (lowerChars m.content.toList) (lowerChars t.toList)
  | .fromUser v, m => userFilterMatch m.author v
  | .mentions v, m => m.mentionedUsers.any (userFilterMatch · v)
  | .has k, m => hasKindMatch k m
  | .reaction e, m =>
      m.reactions.any fun r =>
        lowerStr r.emojiCode == lowerStr e || lowerStr r.emojiName == lowerStr e

/-- C8: for every message filter `f` and message `m`, `f.and(Null)`
matches `m` exactly when `f` does; `f.or(Null)` matches `m` exactly
when the null filter does, namely always; and double negation restores
the matching behaviour of `f`. -/
theorem c8_filter_combinator_laws (f : MessageFilter) (m : Msg) :
    (f.and MessageFilter.null).isMatch m = f.isMatch m
      ∧ (f.or MessageFilter.null).isMatch m = MessageFilter.null.isMatch m
      ∧ MessageFilter.null.isMatch m = true
      ∧ (f.negate.negate).isMatch m = f.isMatch m := by
  refine ⟨?_, ?_, rfl, ?_⟩ <;>
    simp [MessageFilter.and, MessageFilter.or, MessageFilter.negate, MessageFilter.isMatch]

/-- Tokens of the filter grammar (`Token` in `src/unnamed/part_027`).
Suffix `Tk` avoids clashes with Lean keywords; `opFrom` … `opReaction`
embed the four `operator` token values. -/
inductive FToken where
  | textTk (value : String)
  | quotedTk (value : String)
  | opFrom | opMentions | opHas | opReaction
  | colonTk | lparenTk | rparenTk
  | notTk | andTk | orTk | eofTk
  deriving DecidableEq

/-- Characters that end a word while tokenising, the regex class
`[\s:()"\\-]`. -/
def isWordStopper (c : Char) : Bool :=
  isJsSpace c || c = ':' || c = '(' || c = ')' || c = '"' || c = '\\' || c = '-'

/-- Scan of a quoted string body after the opening quote: returns the
token value and the remaining input, consuming the closing quote.  A
backslash escapes the next character; an unterminated quote runs to the
end of input. -/
def scanQuoted : List Char → List Char × List Char
  | [] => ([], [])
  | c :: rest =>
    if c = '"' then ([], rest)
    else if c = '\\' then
      match rest with
      | [] => ([c], [])
      | d :: rest2 =>
        let (v, r) := scanQuoted rest2
        (d :: v, r)
    else
      let (v, r) := scanQuoted rest
      (c :: v, r)

/-- Classification of a completed word: keyword tokens are recognised
case-insensitively, anything else is a plain text token. -/
def wordToken (w : List Char) : FToken :=
  let lower := lowerChars w
  if lower = "from".toList then .opFrom
  else if lower = "mentions".toList then .opMentions
  else if lower = "has".toList then .opHas
  else if lower = "reaction".toList then .opReaction
  else if lower = "and".toList || lower = "&".toList || lower = "&&".toList then .andTk
  else if lower = "or".toList || lower = "|".toList || lower = "||".toList then .orTk
  else if lower = "not".toList || lower = "!".toList then .notTk
  else .textTk (String.mk w)

/-- One pass of `tokenize` with explicit fuel (the source loop runs
until the input is exhausted; a lone backslash outside quotes makes the
source loop spin forever, modelled as `none`). -/
def tokenizeAux : Nat → List Char → Option (List FToken)
  | 0, cs => match cs with | [] => some [.eofTk] | _ :: _ => none
  | fuel + 1, cs =>
    match cs with
    | [] => some [.eofTk]
    | c :: rest =>
      if isJsSpace c then tokenizeAux fuel rest
      else if c = '"' then
        let (v, r) := scanQuoted rest
        (tokenizeAux fuel r).map (FToken.quotedTk (String.mk v) :: ·)
      else if c = '(' then (tokenizeAux fuel rest).map (FToken.lparenTk :: ·)
      else if c = ')' then (tokenizeAux fuel rest).map (FToken.rparenTk :: ·)
      else if c = ':' then (tokenizeAux fuel rest).map (FToken.colonTk :: ·)
      else if c = '-' then (tokenizeAux fuel rest).map (FToken.notTk :: ·)
      else
        match (c :: rest).takeWhile (fun x => !isWordStopper x) with
        | [] => none
        | w => (tokenizeAux fuel ((c :: rest).drop w.length)).map (wordToken w :: ·)

/-- Tokenisation of a filter string (`tokenize` in
`src/unnamed/part_027`); every step consumes at least one character, so
`length + 1` fuel is enough. -/
def tokenize (s : String) : Option (List FToken) :=
  tokenizeAux (s.toList.length + 1) s.toList

/-- Parse of the value after an operator or as a contains-primary
(`FilterParser.parseValue`). -/
def parseValueF : List FToken → Option (String × List FToken)
  | FToken.textTk v :: rest => some (v, rest)
  | FToken.quotedTk v :: rest => some (v, rest)
  | _ => none

/-- Normalisation of the value of a `has:` filter including the
pluralisation aliases (`FilterParser.parseHasKind`); an unknown kind is
a parse error. -/
def parseHasKind (value : String) : Option HasKind :=
  let lower := lowerStr value
  if lower = "link" then some .link
  else if lower = "embed" then some .embed
  else if lower = "file" then some .file
  else if lower = "video" then some .video
  else if lower = "image" then some .image
  else if lower = "sound" then some .sound
  else if lower = "sticker" then some .sticker
  else if lower = "invite" then some .invite
  else if lower = "mention" then some .mention
  else if lower = "pin" then some .pin
  else if lower = "links" || lower = "url" then some .link
  else if lower = "embeds" then some .embed
  else if lower = "files" || lower = "attachment" || lower = "attachments" then some .file
  else if lower = "videos" then some .video
  else if lower = "images" || lower = "img" then some .image
  else if lower = "sounds" || lower = "audio" then some .sound
  else if lower = "stickers" then some .sticker
  else if lower = "invites" then some .invite
  else if lower = "mentions" then some .mention
  else if lower = "pinned" then some .pin
  else none

/-- Construction of the filter for an operator primary
(`FilterParser.createOperatorFilter`). -/
def operatorFilter (op : FToken) (value : String) : Option MessageFilter :=
  match op with
  | .opFrom => some (.fromUser value)
  | .opMentions => some (.mentions value)
  | .opHas => (parseHasKind value).map .has
  | .opReaction => some (.reaction value)
  | _ => none

/-- Tokens on which the implicit-AND loop of `parseAnd` stops: `or`,
a closing parenthesis, or end of input. -/
def isAndStopTok : FToken → Bool
  | .orTk => true
  | .rparenTk => true
  | .eofTk => true
  | _ => false

mutual

/-- Grammar rule `Or := And ('or' And)*`
(`FilterParser.parseOr`); the fuel bounds the recursion depth of the
source's mutual recursion, which consumes tokens at every step. -/
def parseOrF : Nat → List FToken → Option (MessageFilter × List FToken)
  | 0, _ => none
  | fuel + 1, ts => do
    let (left, ts1) ← parseAndF fuel ts
    parseOrRest fuel left ts1

/-- Loop of `parseOr` accumulating `or` combinations to the left. -/
def parseOrRest : Nat → MessageFilter → List FToken → Option (MessageFilter × List FToken)
  | 0, _, _ => none
  | fuel + 1, left, ts =>
    match ts with
    | FToken.orTk :: rest => do
        let (right, ts1) ← parseAndF fuel rest
        parseOrRest fuel (left.or right) ts1
    | _ => some (left, ts)

/-- Grammar rule `And := Unary (('and' | implicit) Unary)*`
(`FilterParser.parseAnd`). -/
def parseAndF : Nat → List FToken → Option (MessageFilter × List FToken)
  | 0, _ => none
  | fuel + 1, ts => do
    let (left, ts1) ← parseUnaryF fuel ts
    parseAndRest fuel left ts1

/-- Loop of `parseAnd`: an explicit `and` token is skipped, and an
implicit AND joins adjacent terms not separated by `or`, `)` or end of
input. -/
def parseAndRest : Nat → MessageFilter → List FToken → Option (MessageFilter × List FToken)
  | 0, _, _ => none
  | fuel + 1, left, ts =>
    match ts with
    | FToken.andTk :: rest => do
        let (right, ts1) ← parseUnaryF fuel rest
        parseAndRest fuel (left.and right) ts1
    | [] => some (left, [])
    | t :: _ =>
      if isAndStopTok t then some (left, ts)
      else do
        let (right, ts1) ← parseUnaryF fuel ts
        parseAndRest fuel (left.and right) ts1

/-- Grammar rule `Unary := '-' Primary | Primary`
(`FilterParser.parseUnary`). -/
def parseUnaryF : Nat → List FToken → Option (MessageFilter × List FToken)
  | 0, _ => none
  | fuel + 1, ts =>
    match ts with
    | FToken.notTk :: rest => do
        let (p, ts1) ← parsePrimaryF fuel rest
        some (p.negate, ts1)
    | _ => parsePrimaryF fuel ts

/-- Grammar rule
`Primary := '(' Or ')' | op ':' value | text`
(`FilterParser.parsePrimary`); a missing `:`/value/`)` or an unexpected
token is a parse error. -/
def parsePrimaryF : Nat → List FToken → Option (MessageFilter × List FToken)
  | 0, _ => none
  | fuel + 1, ts =>
    match ts with
    | FToken.lparenTk :: rest => do
        let (inner, ts1) ← parseOrF fuel rest
        match ts1 with
        | FToken.rparenTk :: ts2 => some (inner, ts2)
        | _ => none
    | FToken.opFrom :: FToken.colonTk :: rest => do
        let (v, ts1) ← parseValueF rest
        let f ← operatorFilter .opFrom v
        some (f, ts1)
    | FToken.opMentions :: FToken.colonTk :: rest => do
        let (v, ts1) ← parseValueF rest
        let f ← operatorFilter .opMentions v
        some (f, ts1)
    | FToken.opHas :: FToken.colonTk :: rest => do
        let (v, ts1) ← parseValueF rest
        let f ← operatorFilter .opHas v
        some (f, ts1)
    | FToken.opReaction :: FToken.colonTk :: rest => do
        let (v, ts1) ← parseValueF rest
        let f ← operatorFilter .opReaction v
        some (f, ts1)
    | FToken.textTk v :: rest => some (.contains v, rest)
    | FToken.quotedTk v :: rest => some (.contains v, rest)
    | _ => none

end

/-- Strip of leading and trailing whitespace, modelling
`String.prototype.trim` on the ASCII range. -/
def trimChars (cs : List Char) : List Char :=
  ((cs.dropWhile isJsSpace).reverse.dropWhile isJsSpace).reverse

/-- Entry point `parseFilter` of `src/unnamed/part_027`: a blank input
is the null filter, otherwise the token stream is parsed from `Or`
down (`FilterParser.parse` returns the null filter when the first token
is already end of input). -/
def parseFilter (input : String) : Option MessageFilter :=
  let trimmed := trimChars input.toList
  if trimmed.isEmpty then some .null
  else do
    let tokens ← tokenize (String.mk trimmed)
    match tokens with
    | [] => some .null
    | FToken.eofTk :: _ => some .null
    | _ => (parseOrF (tokens.length * 4 + 8) tokens).map (·.1)

/-- C10: the tokeniser turns the `-` inside `foo-bar` into a negation
token, so `parseFilter "foo-bar"` is the combinator tree
`contains("foo") AND NOT contains("bar")` — extensionally that
conjunction — and never a contains filter for the literal text
`foo-bar`. -/
theorem c10_minus_is_negation_inside_words :
    tokenize "foo-bar" = some [.textTk "foo", .notTk, .textTk "bar", .eofTk]
      ∧ parseFilter "foo-bar"
          = some ((MessageFilter.contains "foo").and ((MessageFilter.contains "bar").negate))
      ∧ (∀ m : Msg,
          ((MessageFilter.contains "foo").and ((MessageFilter.contains "bar").negate)).isMatch m
            = ((MessageFilter.contains "foo").isMatch m && !((MessageFilter.contains "bar").isMatch m)))
      ∧ parseFilter "foo-bar" ≠ some (.contains "foo-bar") := by
  refine ⟨by decide, by decide, fun m => rfl, by decide⟩

/-- Digit-by-digit accumulation of a decimal value; a non-digit
character is a parse failure. -/
def parseDigitsAux (acc : Nat) : List Char → Option Nat
  | [] => some acc
  | c :: rest =>
    if '0' ≤ c && c ≤ '9' then parseDigitsAux (acc * 10 + (c.toNat - 48)) rest
    else none

/-- Parse of a non-empty all-digit character list as a natural number,
the unsigned decimal case of the ECMAScript `StringToBigInt`
conversion used by `BigInt(string)`. -/
def parseDigits (cs : List Char) : Option Nat :=
  match cs with
  | [] => none
  | _ :: _ => parseDigitsAux 0 cs

/-- Decimal-integer case of `BigInt(string)` on already-trimmed input:
an optional sign followed by decimal digits.  The prefixed binary,
octal and hexadecimal literal forms that `BigInt` also accepts are not
decimal integers and are not modelled (they yield `none` here). -/
def parseBigIntDec (cs : List Char) : Option Int :=
  match cs with
  | [] => none
  | c :: rest =>
    if c = '-' then (parseDigits rest).map fun n => -(Int.ofNat n)
    else if c = '+' then (parseDigits rest).map fun n => Int.ofNat n
    else (parseDigits (c :: rest)).map fun n => Int.ofNat n

/-- `Snowflake.tryParse` of `src/src/discord/snowflake.ts` restricted
to its numeric branch: the input is trimmed, a blank input is `none`,
and a decimal integer becomes the BigInt value.  The fallback that
interprets a non-numeric input as an ISO date is not modelled (it is
unreachable for decimal-parseable inputs, the domain of every theorem
below). -/
def snowflakeTryParse (s : String) : Option Int :=
  let trimmed := trimChars s.toList
  if trimmed.isEmpty then none
  else parseBigIntDec trimmed

/-- `Snowflake.toString`: the decimal representation of the BigInt
value. -/
def snowflakeToString (v : Int) : String := intToStr v

theorem digitChar_facts (d : Nat) (h : d < 10) :
    isJsSpace (digitChar d) = false
      ∧ (('0' ≤ digitChar d && digitChar d ≤ '9') = true)
      ∧ (digitChar d).toNat - 48 = d
      ∧ digitChar d ≠ '-' ∧ digitChar d ≠ '+' := by
  interval_cases d <;> exact ⟨by decide, by decide, by decide, by decide, by decide⟩

theorem natToCharsFuel_eq_of_lt (fuel1 : Nat) :
    ∀ fuel2 n, n < fuel1 → n < fuel2 → natToCharsFuel fuel1 n = natToCharsFuel fuel2 n := by
  induction fuel1 with
  | zero => omega
  | succ f1 ih =>
    intro fuel2 n h1 h2
    cases fuel2 with
    | zero => omega
    | succ f2 =>
      simp only [natToCharsFuel]
      split
      · rfl
      · next h =>
        rw [ih f2 (n / 10) (by omega) (by omega)]

theorem natToChars_eq_fuel (fuel n : Nat) (h : n < fuel) :
    natToChars n = natToCharsFuel fuel n :=
  natToCharsFuel_eq_of_lt (n + 1) fuel n (by omega) h

theorem natToChars_unfold (n : Nat) :
    natToChars n =
      if n < 10 then [digitChar n] else natToChars (n / 10) ++ [digitChar (n % 10)] := by
  by_cases h : n < 10
  · simp [natToChars, natToCharsFuel, h]
  · rw [natToChars, natToCharsFuel]
    simp only [if_neg h]
    rw [natToChars_eq_fuel n (n / 10) (by omega)]

theorem natToChars_mem (n : Nat) : ∀ c ∈ natToChars n, ∃ d, d < 10 ∧ c = digitChar d := by
  induction n using Nat.strong_induction_on with
  | _ n ih =>
    rw [natToChars_unfold]
    split
    · next h =>
      intro c hc
      simp only [List.mem_singleton] at hc
      exact ⟨n, h, hc⟩
    · next h =>
      intro c hc
      rcases List.mem_append.mp hc with h1 | h1
      · exact ih (n / 10) (Nat.div_lt_self (by omega) (by omega)) c h1
      · exact ⟨n % 10, Nat.mod_lt _ (by omega), by simpa using h1⟩

theorem natToChars_ne_nil (n : Nat) : natToChars n ≠ [] := by
  rw [natToChars_unfold]
  split <;> simp

theorem parseDigitsAux_append (acc : Nat) (l1 l2 : List Char) :
    parseDigitsAux acc (l1 ++ l2) = (parseDigitsAux acc l1).bind fun n => parseDigitsAux n l2 := by
  induction l1 generalizing acc with
  | nil => simp [parseDigitsAux]
  | cons c t ih =>
    simp only [List.cons_append, parseDigitsAux]
    split
    · exact ih _
    · simp

theorem parseDigitsAux_natToChars (n : Nat) :
    ∀ acc, parseDigitsAux acc (natToChars n) = some (acc * 10 ^ (natToChars n).length + n) := by
  induction n using Nat.strong_induction_on with
  | _ n ih =>
    intro acc
    rw [natToChars_unfold]
    split
    · next h =>
      obtain ⟨_, f2, f3, _, _⟩ := digitChar_facts n h
      simp [parseDigitsAux, f2, f3]
    · next h =>
      rw [parseDigitsAux_append, ih (n / 10) (Nat.div_lt_self (by omega) (by omega)) acc]
      obtain ⟨_, f2, f3, _, _⟩ := digitChar_facts (n % 10) (Nat.mod_lt _ (by omega))
      show parseDigitsAux (acc * 10 ^ (natToChars (n / 10)).length + n / 10) [digitChar (n % 10)]
          = some (acc * 10 ^ (natToChars (n / 10) ++ [digitChar (n % 10)]).length + n)
      simp only [parseDigitsAux, f2, f3, if_true, List.length_append, List.length_singleton]
      congr 1
      have hqr : n / 10 * 10 + n % 10 = n := by omega
      have hr : (acc * 10 ^ (natToChars (n / 10)).length + n / 10) * 10 + n % 10
          = acc * (10 ^ (natToChars (n / 10)).length * 10) + (n / 10 * 10 + n % 10) := by ring
      rw [hr, hqr, pow_succ]

theorem parseDigits_natToChars (n : Nat) : parseDigits (natToChars n) = some n := by
  cases h : natToChars n with
  | nil => exact absurd h (natToChars_ne_nil n)
  | cons c t =>
    have hx := parseDigitsAux_natToChars n 0
    rw [h] at hx
    calc parseDigits (c :: t) = parseDigitsAux 0 (c :: t) := rfl
      _ = some (0 * 10 ^ ((c :: t) : List Char).length + n) := hx
      _ = some n := by simp

theorem parseBigIntDec_intToChars (v : Int) : parseBigIntDec (intToChars v) = some v := by
  by_cases hv : v < 0
  · simp only [intToChars, if_pos hv, parseBigIntDec, if_pos rfl, parseDigits_natToChars]
    simp only [if_pos trivial, Option.map_some']
    congr 1
    rw [Int.ofNat_eq_natCast]
    omega
  · simp only [intToChars, if_neg hv]
    cases h : natToChars v.natAbs with
    | nil => exact absurd h (natToChars_ne_nil _)
    | cons c t =>
      obtain ⟨d, hd, hcd⟩ := natToChars_mem v.natAbs c (by rw [h]; exact List.mem_cons_self c t)
      obtain ⟨_, _, _, hm, hp⟩ := digitChar_facts d hd
      have hne1 : c ≠ '-' := by rw [hcd]; exact hm
      have hne2 : c ≠ '+' := by rw [hcd]; exact hp
      simp only [parseBigIntDec, if_neg hne1, if_neg hne2, ← h, parseDigits_natToChars,
        Option.map_some']
      congr 1
      rw [Int.ofNat_eq_natCast]
      omega

theorem dropWhile_eq_self_of_none {α} (p : α → Bool) (l : List α)
    (h : ∀ x ∈ l, p x = false) : l.dropWhile p = l := by
  cases l with
  | nil => rfl
  | cons a t => simp [List.dropWhile_cons, h a (List.mem_cons_self a t)]

theorem trimChars_eq_self (cs : List Char) (h : ∀ c ∈ cs, isJsSpace c = false) :
    trimChars cs = cs := by
  unfold trimChars
  rw [dropWhile_eq_self_of_none _ _ h,
    dropWhile_eq_self_of_none _ _ (fun x hx => h x (List.mem_reverse.mp hx)),
    List.reverse_reverse]

theorem intToChars_no_space (v : Int) : ∀ c ∈ intToChars v, isJsSpace c = false := by
  intro c hc
  unfold intToChars at hc
  have hdig : ∀ x ∈ natToChars v.natAbs, isJsSpace x = false := by
    intro x hx
    obtain ⟨d, hd, hxd⟩ := natToChars_mem v.natAbs x hx
    rw [hxd]
    exact (digitChar_facts d hd).1
  split at hc
  · rcases List.mem_cons.mp hc with h1 | h1
    · rw [h1]; decide
    · exact hdig c h1
  · exact hdig c hc

theorem intToChars_ne_nil (v : Int) : intToChars v ≠ [] := by
  unfold intToChars
  split
  · simp
  · exact natToChars_ne_nil _

/-- C9 (amended): the round-trip holds on canonical decimal
representations: for every BigInt value `v`, parsing the string
`toString(v)` yields `v` back, so `parse(s).toString() = s` whenever
`s` is the canonical decimal form of its value. -/
theorem c9_canonical_decimal_roundtrip (v : Int) :
    snowflakeTryParse (snowflakeToString v) = some v
      ∧ (snowflakeTryParse (snowflakeToString v)).map snowflakeToString
          = some (snowflakeToString v) := by
  have h1 : snowflakeTryParse (snowflakeToString v) = some v := by
    show (if (trimChars (intToChars v)).isEmpty = true then none
        else parseBigIntDec (trimChars (intToChars v))) = some v
    rw [trimChars_eq_self _ (intToChars_no_space v)]
    rw [if_neg (by simpa using intToChars_ne_nil v)]
    exact parseBigIntDec_intToChars v
  exact ⟨h1, by rw [h1]; rfl⟩

/-- C9 counterexample: the string `"007"` is parseable as a decimal
integer, but `Snowflake.parse("007").toString()` is `"7"`, not
`"007"`, because `BigInt` normalises leading zeros. -/
theorem c9_leading_zero_counterexample :
    snowflakeTryParse "007" = some 7
      ∧ (snowflakeTryParse "007").map snowflakeToString = some "7"
      ∧ ("7" : String) ≠ "007" :=
  ⟨by decide, by decide, by decide⟩

/-- Twitter/X url test (`Message.isTwitterUrl` in
`src/packages/core/src/discord/data/message.ts`). -/
def isTwitterUrl (url : Option String) : Bool :=
  match url with
  | none => false
  | some u =>
    listContainsSub (lowerChars u.toList) ("://twitter.com/".toList)
      || listContainsSub (lowerChars u.toList) ("://x.com/".toList)

/-- Blank-description test of `Message.isImageOnlyEmbed`: the
description is absent, empty (falsy) or whitespace-only (its trim is
empty exactly when every character is whitespace). -/
def descriptionBlank (d : Option String) : Bool :=
  match d with
  | none => true
  | some s => s.toList.all isJsSpace

/-- Image-only test relative to a parent url
(`Message.isImageOnlyEmbed`). -/
def isImageOnlyEmbed (e : Embed) (parentUrl : Option String) : Bool :=
  e.url == parentUrl
    && e.timestamp == none
    && e.author == none
    && e.color == none
    && descriptionBlank e.description
    && e.fields.length == 0
    && e.images.length == 1
    && e.footer == none

/-- Merging loop of `Message.normalizeEmbeds` with explicit fuel (the
source advances `i` past at least one embed per iteration, so fuel
equal to the list length is always enough): a Twitter-url embed
absorbs the images of the maximal run of immediately following
image-only embeds with the same url; with no such run it is kept
unchanged. -/
def normalizeLoopFuel : Nat → List Embed → List Embed
  | 0, l => l
  | _ + 1, [] => []
  | fuel + 1, e :: rest =>
    if isTwitterUrl e.url then
      if (rest.takeWhile fun x => isImageOnlyEmbed x e.url).isEmpty then
        e :: normalizeLoopFuel fuel rest
      else
        e.withImages
            (e.images ++ (rest.takeWhile fun x => isImageOnlyEmbed x e.url).flatMap (·.images))
          :: normalizeLoopFuel fuel (rest.dropWhile fun x => isImageOnlyEmbed x e.url)
    else e :: normalizeLoopFuel fuel rest

/-- Merging loop of `Message.normalizeEmbeds` at adequate fuel. -/
def normalizeLoop (l : List Embed) : List Embed := normalizeLoopFuel l.length l

/-- `Message.normalizeEmbeds`: lists of at most one embed are returned
unchanged, otherwise the merging loop runs. -/
def normalizeEmbeds (embeds : List Embed) : List Embed :=
  if embeds.length ≤ 1 then embeds else normalizeLoop embeds

/-- Adjacent-pair normal form: no embed is followed by one that the
merging loop would absorb into it. -/
def noMerge : List Embed → Bool
  | [] => true
  | [_] => true
  | a :: b :: rest =>
    !(isTwitterUrl a.url && isImageOnlyEmbed b a.url) && noMerge (b :: rest)

theorem normalizeLoopFuel_nil (fuel : Nat) : normalizeLoopFuel fuel [] = [] := by
  cases fuel <;> rfl

theorem dropWhile_head_false {α} (p : α → Bool) :
    ∀ (l : List α) b t, l.dropWhile p = b :: t → p b = false := by
  intro l
  induction l with
  | nil => intro b t h; simp [List.dropWhile] at h
  | cons a l2 ih =>
    intro b t h
    rw [List.dropWhile_cons] at h
    by_cases hp : p a = true
    · rw [if_pos hp] at h
      exact ih b t h
    · rw [if_neg hp] at h
      injection h with h1 _
      rw [← h1]
      exact Bool.eq_false_iff.mpr hp

theorem isImageOnlyEmbed_images_len (e : Embed) (u : Option String)
    (h : isImageOnlyEmbed e u = true) : e.images.length = 1 := by
  simp only [isImageOnlyEmbed, Bool.and_eq_true, beq_iff_eq] at h
  exact h.1.2

theorem isImageOnlyEmbed_false_of_images {e : Embed} {u : Option String}
    (h : e.images.length ≠ 1) : isImageOnlyEmbed e u = false := by
  cases hb : isImageOnlyEmbed e u with
  | false => rfl
  | true => exact absurd (isImageOnlyEmbed_images_len e u hb) h

theorem flatMap_images_length (u : Option String) :
    ∀ l : List Embed, (∀ x ∈ l, isImageOnlyEmbed x u = true) →
      (l.flatMap (·.images)).length = l.length := by
  intro l
  induction l with
  | nil => intro _; rfl
  | cons a t ih =>
    intro h
    simp only [List.flatMap_cons, List.length_append, List.length_cons]
    rw [isImageOnlyEmbed_images_len a u (h a (List.mem_cons_self a t)),
      ih (fun x hx => h x (List.mem_cons_of_mem a hx))]
    omega

theorem normalizeLoopFuel_congr : ∀ f1 f2 : Nat, ∀ l : List Embed,
    l.length ≤ f1 → l.length ≤ f2 → normalizeLoopFuel f1 l = normalizeLoopFuel f2 l := by
  intro f1
  induction f1 with
  | zero =>
    intro f2 l h1 _
    have hl : l = [] := by cases l with | nil => rfl | cons a t => simp at h1
    rw [hl, normalizeLoopFuel_nil, normalizeLoopFuel_nil]
  | succ f ih =>
    intro f2 l h1 h2
    cases l with
    | nil => rw [normalizeLoopFuel_nil, normalizeLoopFuel_nil]
    | cons e rest =>
      cases f2 with
      | zero => simp at h2
      | succ f2a =>
        have hr : rest.length ≤ f := by simp at h1; omega
        have hr2 : rest.length ≤ f2a := by simp at h2; omega
        have hd : (rest.dropWhile fun x => isImageOnlyEmbed x e.url).length ≤ rest.length :=
          (List.dropWhile_sublist _).length_le
        simp only [normalizeLoopFuel]
        by_cases htw : isTwitterUrl e.url = true
        · rw [if_pos htw, if_pos htw]
          by_cases hab : (rest.takeWhile fun x => isImageOnlyEmbed x e.url).isEmpty = true
          · rw [if_pos hab, if_pos hab, ih f2a rest hr hr2]
          · rw [if_neg hab, if_neg hab, ih f2a _ (le_trans hd hr) (le_trans hd hr2)]
        · rw [if_neg htw, if_neg htw, ih f2a rest hr hr2]

theorem normalizeLoop_eq_fuel (fuel : Nat) (l : List Embed) (h : l.length ≤ fuel) :
    normalizeLoop l = normalizeLoopFuel fuel l :=
  normalizeLoopFuel_congr l.length fuel l (le_refl _) h

theorem normalizeLoopFuel_of_noMerge : ∀ fuel : Nat, ∀ l : List Embed,
    l.length ≤ fuel → noMerge l = true → normalizeLoopFuel fuel l = l := by
  intro fuel
  induction fuel with
  | zero => intro l _ _; rfl
  | succ f ih =>
    intro l h hnm
    cases l with
    | nil => rfl
    | cons e rest =>
      have hr : rest.length ≤ f := by simp at h; omega
      simp only [normalizeLoopFuel]
      cases rest with
      | nil =>
        by_cases htw : isTwitterUrl e.url = true
        · rw [if_pos htw]
          rw [if_pos (by rfl), normalizeLoopFuel_nil]
        · rw [if_neg htw, normalizeLoopFuel_nil]
      | cons b rest2 =>
        have hsplit : (isTwitterUrl e.url = false ∨ isImageOnlyEmbed b e.url = false)
            ∧ noMerge (b :: rest2) = true := by
          have hx : (!(isTwitterUrl e.url && isImageOnlyEmbed b e.url)
              && noMerge (b :: rest2)) = true := hnm
          constructor
          · have h2 := (Bool.and_eq_true _ _).mp hx |>.1
            simpa using h2
          · exact ((Bool.and_eq_true _ _).mp hx).2
        by_cases htw : isTwitterUrl e.url = true
        · have hio : isImageOnlyEmbed b e.url = false := by
            rcases hsplit.1 with hcase | hcase
            · exact absurd htw (by simp [hcase])
            · exact hcase
          have htake : ((b :: rest2).takeWhile fun x => isImageOnlyEmbed x e.url) = [] := by
            rw [List.takeWhile_cons, if_neg (by simp [hio])]
          rw [if_pos htw, htake]
          rw [if_pos (by rfl), ih (b :: rest2) hr hsplit.2]
        · rw [if_neg htw, ih (b :: rest2) hr hsplit.2]

theorem mem_takeWhile_prop {α} (p : α → Bool) :
    ∀ l : List α, ∀ x, x ∈ l.takeWhile p → p x = true := by
  intro l
  induction l with
  | nil => intro x hx; simp [List.takeWhile] at hx
  | cons a t ih =>
    intro x hx
    rw [List.takeWhile_cons] at hx
    by_cases hp : p a = true
    · rw [if_pos hp] at hx
      rcases List.mem_cons.mp hx with h1 | h1
      · rw [h1]; exact hp
      · exact ih x h1
    · rw [if_neg hp] at hx
      simp at hx

theorem normalizeLoopFuel_head (fuel : Nat) (e : Embed) (rest : List Embed) :
    (∃ tl, normalizeLoopFuel (fuel + 1) (e :: rest) = e :: tl)
      ∨ ∃ imgs tl, normalizeLoopFuel (fuel + 1) (e :: rest)
            = e.withImages (e.images ++ imgs) :: tl
          ∧ 1 ≤ imgs.length ∧ isTwitterUrl e.url = true := by
  simp only [normalizeLoopFuel]
  by_cases htw : isTwitterUrl e.url = true
  · rw [if_pos htw]
    by_cases hab : (rest.takeWhile fun x => isImageOnlyEmbed x e.url).isEmpty = true
    · rw [if_pos hab]
      exact Or.inl ⟨_, rfl⟩
    · rw [if_neg hab]
      refine Or.inr ⟨_, _, rfl, ?_, htw⟩
      have hmem : ∀ x ∈ rest.takeWhile fun x => isImageOnlyEmbed x e.url,
          isImageOnlyEmbed x e.url = true :=
        fun x hx => mem_takeWhile_prop (fun x => isImageOnlyEmbed x e.url) rest x hx
      rw [flatMap_images_length e.url _ hmem]
      have : (rest.takeWhile fun x => isImageOnlyEmbed x e.url) ≠ [] := by
        intro hc
        rw [hc] at hab
        exact hab rfl
      cases hne : rest.takeWhile fun x => isImageOnlyEmbed x e.url with
      | nil => exact absurd hne this
      | cons a t => simp
  · rw [if_neg htw]
    exact Or.inl ⟨_, rfl⟩

theorem noMerge_cons (a : Embed) (R : List Embed) (hR : noMerge R = true)
    (hpair : ∀ b tl, R = b :: tl → (isTwitterUrl a.url && isImageOnlyEmbed b a.url) = false) :
    noMerge (a :: R) = true := by
  cases R with
  | nil => rfl
  | cons b tl =>
    show (!(isTwitterUrl a.url && isImageOnlyEmbed b a.url) && noMerge (b :: tl)) = true
    rw [hpair b tl rfl, hR]
    rfl

theorem head_not_mergeable (f : Nat) (a : Embed) (rem : List Embed)
    (hflen : rem.length ≤ f)
    (hH : ∀ x ∈ rem, isTwitterUrl x.url = true → x.images ≠ [])
    (hhead : ∀ c rem2, rem = c :: rem2 → isImageOnlyEmbed c a.url = false) :
    ∀ b tl, normalizeLoopFuel f rem = b :: tl →
      (isTwitterUrl a.url && isImageOnlyEmbed b a.url) = false := by
  intro b tl heq
  cases rem with
  | nil => rw [normalizeLoopFuel_nil] at heq; cases heq
  | cons c rem2 =>
    cases f with
    | zero => simp at hflen
    | succ f2 =>
      have hioc : isImageOnlyEmbed c a.url = false := hhead c rem2 rfl
      rcases normalizeLoopFuel_head f2 c rem2 with ⟨tl2, h2⟩ | ⟨imgs, tl2, h2, him, htwc⟩
      · rw [h2] at heq
        injection heq with hb _
        rw [← hb, hioc]
        simp
      · rw [h2] at heq
        injection heq with hb _
        have hclen : c.images ≠ [] := hH c (List.mem_cons_self c rem2) htwc
        have hblen : b.images.length ≠ 1 := by
          rw [← hb]
          show (c.images ++ imgs).length ≠ 1
          rw [List.length_append]
          have : 1 ≤ c.images.length := by
            cases hc : c.images with
            | nil => exact absurd hc hclen
            | cons x xs => simp
          omega
        rw [isImageOnlyEmbed_false_of_images hblen]
        simp

theorem noMerge_normalizeLoopFuel : ∀ fuel : Nat, ∀ l : List Embed,
    l.length ≤ fuel → (∀ x ∈ l, isTwitterUrl x.url = true → x.images ≠ []) →
    noMerge (normalizeLoopFuel fuel l) = true := by
  intro fuel
  induction fuel with
  | zero =>
    intro l h _
    have hl : l = [] := by cases l with | nil => rfl | cons a t => simp at h
    rw [hl]
    rfl
  | succ f ih =>
    intro l h hH
    cases l with
    | nil => rfl
    | cons e rest =>
      have hr : rest.length ≤ f := by simp at h; omega
      have hHrest : ∀ x ∈ rest, isTwitterUrl x.url = true → x.images ≠ [] :=
        fun x hx => hH x (List.mem_cons_of_mem e hx)
      simp only [normalizeLoopFuel]
      by_cases htw : isTwitterUrl e.url = true
      · by_cases hab : (rest.takeWhile fun x => isImageOnlyEmbed x e.url).isEmpty = true
        · rw [if_pos htw, if_pos hab]
          refine noMerge_cons e _ (ih rest hr hHrest) ?_
          refine head_not_mergeable f e rest hr hHrest ?_
          intro c rem2 hrem
          rw [hrem] at hab
          rw [List.takeWhile_cons] at hab
          by_cases hio : isImageOnlyEmbed c e.url = true
          · rw [if_pos (by simp [hio])] at hab
            simp at hab
          · simpa using hio
        · rw [if_pos htw, if_neg hab]
          have hd : (rest.dropWhile fun x => isImageOnlyEmbed x e.url).length ≤ f :=
            le_trans ((List.dropWhile_sublist _).length_le) hr
          have hHd : ∀ x ∈ rest.dropWhile fun x => isImageOnlyEmbed x e.url,
              isTwitterUrl x.url = true → x.images ≠ [] :=
            fun x hx => hHrest x ((List.dropWhile_sublist _).mem hx)
          refine noMerge_cons _ _ (ih _ hd hHd) ?_
          have hpair := head_not_mergeable f (e.withImages
              (e.images ++ (rest.takeWhile fun x => isImageOnlyEmbed x e.url).flatMap (·.images)))
            (rest.dropWhile fun x => isImageOnlyEmbed x e.url) hd hHd ?_
          · exact hpair
          · intro c rem2 hrem
            exact dropWhile_head_false _ rest c rem2 hrem
      · rw [if_neg htw]
        refine noMerge_cons e _ (ih rest hr hHrest) ?_
        intro b tl _
        rw [Bool.eq_false_iff.mpr htw]
        simp

/-- Twitter-url embed with no image and all mergeability-relevant
fields empty. -/
def twitterEmbedNoImage : Embed :=
  ⟨none, none, some "https://twitter.com/a", none, none, none, none, [], none, none, [], none, none⟩

/-- Twitter-url embed identical to `twitterEmbedNoImage` except for a
single image. -/
def twitterEmbedOneImage : Embed :=
  ⟨none, none, some "https://twitter.com/a", none, none, none, none, [], none, none, [1], none, none⟩

/-- C5 counterexample: embed normalisation is not idempotent.  On the
list `[A, A, C]` — `A` a bare Twitter-url embed without images, `C` the
same embed with one image — the first pass merges `C` into the second
`A` (producing an embed with exactly one image), and only a second pass
merges that result into the first `A`. -/
theorem c5_normalize_not_idempotent :
    normalizeEmbeds [twitterEmbedNoImage, twitterEmbedNoImage, twitterEmbedOneImage]
        = [twitterEmbedNoImage, twitterEmbedOneImage]
      ∧ normalizeEmbeds
            (normalizeEmbeds [twitterEmbedNoImage, twitterEmbedNoImage, twitterEmbedOneImage])
          ≠ normalizeEmbeds [twitterEmbedNoImage, twitterEmbedNoImage, twitterEmbedOneImage] :=
  ⟨by decide, by decide⟩

/-- C5 (amended): embed normalisation is idempotent on every embed list
in which each embed with a Twitter/X url has at least one image (the
counterexample requires a Twitter-url embed with an empty image list):
`normalizeEmbeds (normalizeEmbeds E) = normalizeEmbeds E`. -/
theorem c5_normalize_idempotent_amended (E : List Embed)
    (h : ∀ e ∈ E, isTwitterUrl e.url = true → e.images ≠ []) :
    normalizeEmbeds (normalizeEmbeds E) = normalizeEmbeds E := by
  by_cases h1 : E.length ≤ 1
  · simp [normalizeEmbeds, h1]
  · have houter : normalizeEmbeds E = normalizeLoop E := by simp [normalizeEmbeds, h1]
    rw [houter]
    have hnm : noMerge (normalizeLoop E) = true :=
      noMerge_normalizeLoopFuel E.length E (le_refl _) h
    by_cases h2 : (normalizeLoop E).length ≤ 1
    · simp [normalizeEmbeds, h2]
    · have hinner : normalizeEmbeds (normalizeLoop E) = normalizeLoop (normalizeLoop E) := by
        simp [normalizeEmbeds, h2]
      rw [hinner]
      exact normalizeLoopFuel_of_noMerge _ _ (le_refl _) hnm

/-- C5 witness: the amended idempotence theorem applied to a concrete
two-element list of Twitter embeds that both carry an image. -/
theorem c5_normalize_idempotent_amended_witness :
    normalizeEmbeds (normalizeEmbeds [twitterEmbedOneImage, twitterEmbedOneImage])
      = normalizeEmbeds [twitterEmbedOneImage, twitterEmbedOneImage] :=
  c5_normalize_idempotent_amended [twitterEmbedOneImage, twitterEmbedOneImage] (by decide)

/-- Port of `HtmlMessageWriter.canJoinGroup` (`src/unnamed/part_008`):
`last` is the last message of the current message group, `none` when
the group is empty.  Reply-likes never join; a system notification
joins exactly when the previous message is one too; a normal message
additionally needs the previous message within seven minutes, with the
same author id and the same full name. -/
def canJoinGroup (last : Option Msg) (m : Msg) : Bool :=
  match last with
  | none => true
  | some lm =>
    if m.isReplyLike then false
    else if m.isSystemNotification then
      if !lm.isSystemNotification then false else true
    else if lm.isSystemNotification then false
    else if (m.tsMillis - lm.tsMillis).natAbs > 7 * 60 * 1000 then false
    else if !(m.author.id == lm.author.id) then false
    else if !(m.author.fullName == lm.author.fullName) then false
    else true

/-- Grouping rule exactly as the specification words it (for comparison
with the code): same author id and same rendered display name, within
seven minutes, neither message reply-like, and equal
system-notification status. -/
def specJoinRule (lm m : Msg) : Bool :=
  (m.author.id == lm.author.id)
    && (m.author.fullName == lm.author.fullName)
    && ((m.tsMillis - lm.tsMillis).natAbs ≤ 7 * 60 * 1000)
    && !m.isReplyLike
    && !lm.isReplyLike
    && (m.isSystemNotification == lm.isSystemNotification)

/-- Shared author of the C6 example messages. -/
def exUser : MUser := ⟨1, "alice", "alice", ""⟩

/-- A reply message (kind 19) by `exUser` at time 0. -/
def exReplyMsg : Msg := ⟨1, 19, false, 0, exUser, "", [], [], [], [], [], false, 0⟩

/-- A plain message (kind 0) by `exUser` at time 0. -/
def exPlainMsg : Msg := ⟨2, 0, false, 0, exUser, "", [], [], [], [], [], false, 0⟩

/-- A system notification (kind 6, pinned-message notice) by `exUser`
at time 0. -/
def exSystemMsg : Msg := ⟨3, 6, false, 0, exUser, "", [], [], [], [], [], false, 0⟩

/-- A system notification (kind 7, member-join notice) by a different
user, one hour later. -/
def exSystemMsg2 : Msg := ⟨4, 7, false, 3600000, ⟨2, "bob", "bob", ""⟩, "", [], [], [], [], [], false, 0⟩

/-- C6 counterexample: the code lets a plain message join a group whose
last message is a reply (the spec rule forbids it, requiring that
neither message be reply-like), and it groups two system notifications
from different authors an hour apart (the spec rule requires the same
author and at most seven minutes for every join). -/
theorem c6_join_rule_counterexample :
    canJoinGroup (some exReplyMsg) exPlainMsg = true
      ∧ specJoinRule exReplyMsg exPlainMsg = false
      ∧ canJoinGroup (some exSystemMsg) exSystemMsg2 = true
      ∧ specJoinRule exSystemMsg exSystemMsg2 = false :=
  ⟨by decide, by decide, by decide, by decide⟩

/-- C6 (amended): with a previous message present, a message joins the
group iff it is not reply-like and either both messages are system
notifications, or neither is and they are within seven minutes with
the same author id and the same rendered full name.  The previous
message being reply-like is not checked, and the author, name and time
checks are skipped entirely for system notifications. -/
theorem c6_join_rule_amended (lm m : Msg) :
    canJoinGroup (some lm) m
      = (!m.isReplyLike
          && (if m.isSystemNotification then lm.isSystemNotification
              else (!lm.isSystemNotification
                && decide ((m.tsMillis - lm.tsMillis).natAbs ≤ 7 * 60 * 1000)
                && (m.author.id == lm.author.id)
                && (m.author.fullName == lm.author.fullName)))) := by
  show (if m.isReplyLike then false
    else if m.isSystemNotification then
      if !lm.isSystemNotification then false else true
    else if lm.isSystemNotification then false
    else if (m.tsMillis - lm.tsMillis).natAbs > 7 * 60 * 1000 then false
    else if !(m.author.id == lm.author.id) then false
    else if !(m.author.fullName == lm.author.fullName) then false
    else true) = _
  by_cases h1 : m.isReplyLike
  · simp [h1]
  · by_cases h2 : m.isSystemNotification
    · by_cases h3 : lm.isSystemNotification <;> simp [h1, h2, h3]
    · by_cases h3 : lm.isSystemNotification
      · simp [h1, h2, h3]
      · by_cases h4 : (m.tsMillis - lm.tsMillis).natAbs ≤ 7 * 60 * 1000
        · by_cases h5 : m.author.id = lm.author.id
          · by_cases h6 : m.author.fullName = lm.author.fullName <;>
              simp [h1, h2, h3, h4, h5, h6, Nat.not_lt.mpr h4]
          · simp [h1, h2, h3, h4, h5, Nat.not_lt.mpr h4]
        · have h4x : (m.tsMillis - lm.tsMillis).natAbs > 7 * 60 * 1000 := by omega
          simp [h1, h2, h3, h4, h4x]

/-- Guild member (`Member` in `src/src/discord/data/member.ts`). -/
structure Member where
  user : MUser
  nick : Option String
  roleIds : List Nat
  avatarUrl : String
  guildId : Nat
  deriving DecidableEq

/-- `Member.createFallback`: member synthesised from a bare user when
the guild-member fetch found nothing — no nickname, no roles, the
user's own avatar, guild id `Snowflake.Zero`. -/
def Member.createFallback (u : MUser) : Member :=
  ⟨u, none, [], u.avatarUrl, 0⟩

/-- Upstream lookups consulted by `populateMemberInternal`
(`src/src/index.ts`): the results of `tryGetGuildMember` and
`tryGetUser` per user id; `none` models the 403/404 null of the
try-endpoints. -/
structure MemberEnv where
  guildMember : Nat → Option Member
  user : Nat → Option MUser

/-- One upstream fetch performed during member population. -/
inductive Fetch where
  | guildMember (id : Nat)
  | user (id : Nat)
  deriving DecidableEq

/-- Replacement-or-append write of a JavaScript `Map.set`, keyed here
by the numeric id (the source keys by `id.toString()`, which is
injective on ids). -/
def cacheSet (c : List (Nat × Option Member)) (id : Nat) (v : Option Member) :
    List (Nat × Option Member) :=
  match c with
  | [] => [(id, v)]
  | (k, w) :: t => if k = id then (id, v) :: t else (k, w) :: cacheSet t id v

/-- `ExportContext.populateMemberInternal`: return at once on a cache
hit; otherwise fetch the guild member, fall back to the supplied user
or to `tryGetUser`, synthesise a fallback member when a user is known,
and store the result — even a `none` — to prevent re-query.  Returns
the new cache and the upstream fetches performed. -/
def populateMemberInternal (env : MemberEnv) (cache : List (Nat × Option Member))
    (id : Nat) (fallbackUser : Option MUser) :
    List (Nat × Option Member) × List Fetch :=
  if (cache.lookup id).isSome then (cache, [])
  else
    match env.guildMember id with
    | some mem => (cacheSet cache id (some mem), [Fetch.guildMember id])
    | none =>
      match fallbackUser with
      | some u =>
          (cacheSet cache id (some (Member.createFallback u)), [Fetch.guildMember id])
      | none =>
        match env.user id with
        | some u =>
            (cacheSet cache id (some (Member.createFallback u)),
              [Fetch.guildMember id, Fetch.user id])
        | none => (cacheSet cache id none, [Fetch.guildMember id, Fetch.user id])

/-- `ExportContext.populateMember`. -/
def populateMember (env : MemberEnv) (cache : List (Nat × Option Member)) (id : Nat) :
    List (Nat × Option Member) × List Fetch :=
  populateMemberInternal env cache id none

/-- `ExportContext.populateMemberFromUser`. -/
def populateMemberFromUser (env : MemberEnv) (cache : List (Nat × Option Member)) (u : MUser) :
    List (Nat × Option Member) × List Fetch :=
  populateMemberInternal env cache u.id (some u)

theorem lookup_cacheSet_self (c : List (Nat × Option Member)) (id : Nat) (v : Option Member) :
    (cacheSet c id v).lookup id = some v := by
  induction c with
  | nil => simp [cacheSet, List.lookup]
  | cons p t ih =>
    obtain ⟨k, w⟩ := p
    by_cases hk : k = id
    · simp [cacheSet, hk, List.lookup]
    · simp only [cacheSet, if_neg hk, List.lookup]
      have hbeq : (id == k) = false := by simpa using Ne.symm hk
      rw [hbeq]
      exact ih

theorem populateMemberInternal_mem (env : MemberEnv) (cache : List (Nat × Option Member))
    (id : Nat) (fb : Option MUser) :
    ((populateMemberInternal env cache id fb).1.lookup id).isSome = true := by
  unfold populateMemberInternal
  by_cases hhit : (cache.lookup id).isSome = true
  · rw [if_pos hhit]
    exact hhit
  · rw [if_neg hhit]
    cases hgm : env.guildMember id with
    | some mem => simp [lookup_cacheSet_self]
    | none =>
      cases fb with
      | some u => simp [lookup_cacheSet_self]
      | none =>
        cases huser : env.user id with
        | some u => simp [lookup_cacheSet_self]
        | none => simp [lookup_cacheSet_self]

theorem populateMemberInternal_hit (env : MemberEnv) {cache : List (Nat × Option Member)}
    {id : Nat} (fb : Option MUser) (h : (cache.lookup id).isSome = true) :
    populateMemberInternal env cache id fb = (cache, []) := by
  unfold populateMemberInternal
  rw [if_pos h]

/-- C7: after `populateMember(id)` the cache contains an entry for `id`
even when every lookup failed; a second population of the same id
performs no upstream fetch; and when the guild-member fetch returns
null but a user is known — passed as fallback or found by
`tryGetUser` — the synthesised fallback member is stored instead of
null. -/
theorem c7_member_cache_invariants (env : MemberEnv) (cache : List (Nat × Option Member))
    (id : Nat) (fb : Option MUser) :
    ((populateMemberInternal env cache id fb).1.lookup id).isSome = true
      ∧ (∀ fb2, (populateMemberInternal env
            (populateMemberInternal env cache id fb).1 id fb2).2 = [])
      ∧ (cache.lookup id = none → env.guildMember id = none →
          ∀ u, (fb = some u ∨ (fb = none ∧ env.user id = some u)) →
            (populateMemberInternal env cache id fb).1.lookup id
              = some (some (Member.createFallback u))) := by
  refine ⟨populateMemberInternal_mem env cache id fb, ?_, ?_⟩
  · intro fb2
    rw [populateMemberInternal_hit env fb2 (populateMemberInternal_mem env cache id fb)]
  · intro hmiss hgm u hu
    unfold populateMemberInternal
    rw [if_neg (by rw [hmiss]; simp)]
    rw [hgm]
    rcases hu with hfb | ⟨hfb, huser⟩
    · rw [hfb]
      simp [lookup_cacheSet_self]
    · rw [hfb, huser]
      simp [lookup_cacheSet_self]

/-- Environment for the C7 witness: the guild-member endpoint always
404s and only user 5 exists. -/
def memberEnvEx : MemberEnv :=
  ⟨fun _ => none, fun i => if i = 5 then some ⟨5, "eve", "eve", "av"⟩ else none⟩

/-- C7 witness: populating user 5 in the empty cache against
`memberEnvEx` caches a fallback member, and a second population
fetches nothing. -/
theorem c7_member_cache_invariants_witness :
    ((populateMemberInternal memberEnvEx [] 5 none).1.lookup 5).isSome = true
      ∧ (populateMemberInternal memberEnvEx
            (populateMemberInternal memberEnvEx [] 5 none).1 5 none).2 = []
      ∧ (populateMemberInternal memberEnvEx [] 5 none).1.lookup 5
          = some (some (Member.createFallback ⟨5, "eve", "eve", "av"⟩)) := by
  obtain ⟨h1, h2, h3⟩ := c7_member_cache_invariants memberEnvEx [] 5 none
  exact ⟨h1, h2 none, h3 rfl rfl _ (Or.inr ⟨rfl, rfl⟩)⟩

/-- `isRetryableStatusCode` of `src/packages/core/src/utils/http.ts`:
membership in the fixed retryable set, or any status of 500 and
above. -/
def isRetryableStatusCode (s : Nat) : Bool :=
  (s == 408 || s == 429 || s == 500 || s == 502 || s == 503 || s == 504) || 500 ≤ s

/-- Outcome of one HTTP attempt: a transport error (the request
throws), or a response with a status code and the optional parsed
`Retry-After` header value in seconds. -/
inductive Attempt where
  | failure
  | response (status : Nat) (retryAfter : Option ℚ)

/-- Retry condition of `DiscordClient.getResponse`: a transport error
is always retried, a response is retried when its status is
retryable. -/
def attemptRetriable : Attempt → Bool
  | .failure => true
  | .response s _ => isRetryableStatusCode s

/-- Retry loop of `DiscordClient.getResponse` (`src/unnamed/part_025`):
`k` is the current attempt index and `r` the attempts remaining of
`MAX_RETRIES = 5`.  Returns the number of attempts made, the delays
slept in milliseconds (one per retried attempt, in order), and the
status of the returned response — `none` when the loop exhausts all
attempts and rethrows the last error.  The delay uses `Retry-After`
seconds times 1000 when present, otherwise
`INITIAL_RETRY_DELAY_MS * 2 ^ k`, both capped at
`MAX_RETRY_DELAY_MS = 60000`. -/
def getResponseLoop (attempts : Nat → Attempt) : Nat → Nat → Nat × List ℚ × Option Nat
  | _, 0 => (0, [], none)
  | k, r + 1 =>
    match attempts k with
    | .failure =>
      let rest := getResponseLoop attempts (k + 1) r
      (rest.1 + 1, min ((1000 : ℚ) * 2 ^ k) 60000 :: rest.2.1, rest.2.2)
    | .response s ra =>
      if isRetryableStatusCode s then
        let d : ℚ := match ra with
          | some t => min (t * 1000) 60000
          | none => min ((1000 : ℚ) * 2 ^ k) 60000
        let rest := getResponseLoop attempts (k + 1) r
        (rest.1 + 1, d :: rest.2.1, rest.2.2)
      else (1, [], some s)

/-- `DiscordClient.getResponse`: the retry loop run for at most five
attempts. -/
def getResponse (attempts : Nat → Attempt) : Nat × List ℚ × Option Nat :=
  getResponseLoop attempts 0 5

/-- Delay recorded for a retried attempt, per the attempt's outcome. -/
def delayFormula (a : Attempt) (k : Nat) (d : ℚ) : Prop :=
  match a with
  | .failure => d = min ((1000 : ℚ) * 2 ^ k) 60000
  | .response _ none => d = min ((1000 : ℚ) * 2 ^ k) 60000
  | .response _ (some t) => d = min (t * 1000) 60000

theorem getResponseLoop_count_le (attempts : Nat → Attempt) :
    ∀ r k, (getResponseLoop attempts k r).1 ≤ r := by
  intro r
  induction r with
  | zero => intro k; simp [getResponseLoop]
  | succ r ih =>
    intro k
    cases ha : attempts k with
    | failure =>
      simp only [getResponseLoop, ha]
      simpa using ih (k + 1)
    | response s ra =>
      by_cases hr : isRetryableStatusCode s = true
      · simp only [getResponseLoop, ha, if_pos hr]
        simpa using ih (k + 1)
      · simp only [getResponseLoop, ha, if_neg hr]
        simp

theorem getResponseLoop_retried (attempts : Nat → Attempt) :
    ∀ r k j, j + 1 < (getResponseLoop attempts k r).1 →
      attemptRetriable (attempts (k + j)) = true := by
  intro r
  induction r with
  | zero => intro k j h; simp [getResponseLoop] at h
  | succ r ih =>
    intro k j h
    cases ha : attempts k with
    | failure =>
      simp only [getResponseLoop, ha] at h
      cases j with
      | zero => simp [ha, attemptRetriable]
      | succ j2 =>
        have hj : j2 + 1 < (getResponseLoop attempts (k + 1) r).1 := by omega
        have hk : k + (j2 + 1) = (k + 1) + j2 := by omega
        rw [hk]
        exact ih (k + 1) j2 hj
    | response s ra =>
      by_cases hr : isRetryableStatusCode s = true
      · simp only [getResponseLoop, ha, if_pos hr] at h
        cases j with
        | zero => simp [ha, attemptRetriable, hr]
        | succ j2 =>
          have hj : j2 + 1 < (getResponseLoop attempts (k + 1) r).1 := by omega
          have hk : k + (j2 + 1) = (k + 1) + j2 := by omega
          rw [hk]
          exact ih (k + 1) j2 hj
      · simp only [getResponseLoop, ha, if_neg hr] at h
        omega

theorem getResponseLoop_result (attempts : Nat → Attempt) :
    ∀ r k s, (getResponseLoop attempts k r).2.2 = some s →
      isRetryableStatusCode s = false := by
  intro r
  induction r with
  | zero => intro k s h; simp [getResponseLoop] at h
  | succ r ih =>
    intro k s h
    cases ha : attempts k with
    | failure =>
      simp only [getResponseLoop, ha] at h
      exact ih (k + 1) s h
    | response s2 ra =>
      by_cases hr : isRetryableStatusCode s2 = true
      · simp only [getResponseLoop, ha, if_pos hr] at h
        exact ih (k + 1) s h
      · simp only [getResponseLoop, ha, if_neg hr] at h
        injection h with h2
        rw [← h2]
        exact Bool.eq_false_iff.mpr hr

theorem getResponseLoop_delays (attempts : Nat → Attempt) :
    ∀ r k j d, (getResponseLoop attempts k r).2.1.get? j = some d →
      delayFormula (attempts (k + j)) (k + j) d := by
  intro r
  induction r with
  | zero => intro k j d h; simp [getResponseLoop] at h
  | succ r ih =>
    intro k j d h
    cases ha : attempts k with
    | failure =>
      simp only [getResponseLoop, ha] at h
      cases j with
      | zero =>
        simp only [List.get?] at h
        injection h with h2
        simp [ha, delayFormula, ← h2]
      | succ j2 =>
        have hj : (getResponseLoop attempts (k + 1) r).2.1.get? j2 = some d := by
          simpa using h
        have hk : k + (j2 + 1) = (k + 1) + j2 := by omega
        rw [hk]
        exact ih (k + 1) j2 d hj
    | response s ra =>
      by_cases hr : isRetryableStatusCode s = true
      · simp only [getResponseLoop, ha, if_pos hr] at h
        cases j with
        | zero =>
          simp only [List.get?] at h
          injection h with h2
          cases ra <;> simp [ha, delayFormula, ← h2]
        | succ j2 =>
          have hj : (getResponseLoop attempts (k + 1) r).2.1.get? j2 = some d := by
            simpa using h
          have hk : k + (j2 + 1) = (k + 1) + j2 := by omega
          rw [hk]
          exact ih (k + 1) j2 d hj
      · simp only [getResponseLoop, ha, if_neg hr] at h
        simp at h

/-- C2 (amended): per request at most five attempts are made; every
attempt that was followed by another was a transport error or had a
retryable status, where the retryable statuses are exactly
`{408, 429} ∪ [500, ∞)` (not `[500, 600)`: the code retries any status
of 500 or above); a returned response has a non-retryable status; and
the recorded delay before attempt `k+1` is
`min(60s, 1s·2^k + jitter)` for some jitter in `[0, 1s)` (namely zero —
the code adds no jitter) when the attempt carried no `Retry-After`,
and `min(Retry-After·1000, 60s)` when it did. -/
theorem c2_retry_policy_amended (attempts : Nat → Attempt) :
    (getResponse attempts).1 ≤ 5
      ∧ (∀ s, isRetryableStatusCode s = true ↔ (s = 408 ∨ s = 429 ∨ 500 ≤ s))
      ∧ (∀ j, j + 1 < (getResponse attempts).1 → attemptRetriable (attempts j) = true)
      ∧ (∀ s, (getResponse attempts).2.2 = some s → isRetryableStatusCode s = false)
      ∧ (∀ j d, (getResponse attempts).2.1.get? j = some d →
          ((attempts j = .failure ∨ (∃ s, attempts j = .response s none)) →
              ∃ jit : ℚ, 0 ≤ jit ∧ jit < 1000 ∧ d = min 60000 ((1000 : ℚ) * 2 ^ j + jit))
            ∧ (∀ s t, attempts j = .response s (some t) → d = min (t * 1000) 60000)) := by
  refine ⟨getResponseLoop_count_le attempts 5 0, ?_, ?_, ?_, ?_⟩
  · intro s
    simp only [isRetryableStatusCode, Bool.or_eq_true, beq_iff_eq, decide_eq_true_eq]
    omega
  · intro j h
    have := getResponseLoop_retried attempts 5 0 j h
    simpa using this
  · intro s h
    exact getResponseLoop_result attempts 5 0 s h
  · intro j d h
    have hf := getResponseLoop_delays attempts 5 0 j d h
    rw [Nat.zero_add] at hf
    constructor
    · intro hcase
      have hd : d = min ((1000 : ℚ) * 2 ^ j) 60000 := by
        rcases hcase with hc | ⟨s, hc⟩
        · rw [hc] at hf
          exact hf
        · rw [hc] at hf
          exact hf
      exact ⟨0, le_refl 0, by norm_num, by rw [hd, add_zero, min_comm]⟩
    · intro s t hc
      rw [hc] at hf
      exact hf

/-- Attempt sequence for the C2 counterexample: a response with status
600 first, then one with status 200. -/
def attempts600 : Nat → Attempt :=
  fun k => if k = 0 then .response 600 none else .response 200 none

/-- C2 counterexample: a response with status 600 is retried — the code
treats every status of 500 and above as retryable — although 600 lies
outside the claimed retry set `{408, 429} ∪ [500, 600)`, so the claimed
"retried iff" fails at status 600. -/
theorem c2_status600_counterexample :
    isRetryableStatusCode 600 = true
      ∧ ¬(600 = 408 ∨ 600 = 429 ∨ (500 ≤ 600 ∧ 600 < 600))
      ∧ (getResponse attempts600).1 = 2 :=
  ⟨by decide, by decide, by decide⟩

/-- Attempt sequence for the C2 witness: a transport failure, then a
status-200 response. -/
def attemptsC2W : Nat → Attempt :=
  fun k => if k = 0 then .failure else .response 200 none

/-- C2 witness: the amended retry-policy theorem applied to
`attemptsC2W`, whose run makes two attempts and returns status 200. -/
theorem c2_retry_policy_amended_witness :
    (getResponse attemptsC2W).1 ≤ 5
      ∧ (isRetryableStatusCode 600 = true ↔ (600 = 408 ∨ 600 = 429 ∨ 500 ≤ 600))
      ∧ attemptRetriable (attemptsC2W 0) = true
      ∧ isRetryableStatusCode 200 = false := by
  obtain ⟨h1, h2, h3, h4, _⟩ := c2_retry_policy_amended attemptsC2W
  exact ⟨h1, h2 600, h3 0 (by decide), h4 200 (by decide)⟩

/-- Events a format writer appends to its file:
`MessageWriter.writePreamble`, `writeMessage` and `writePostamble`. -/
inductive Entry where
  | preamble
  | message (id : Nat)
  | postamble
  deriving DecidableEq

/-- Partition limits
(`src/src/exporting/partitioning/partition-limit.ts`): the null limit,
a message count, or a byte budget. -/
inductive PartitionLimit where
  | null
  | messageCount (n : Nat)
  | fileSize (bytes : Nat)
  deriving DecidableEq

/-- `PartitionLimit.isReached` for each subclass: never for the null
limit; `messagesWritten >= limit` for a message count;
`bytesWritten >= limit` for a byte budget. -/
def PartitionLimit.isReached : PartitionLimit → Nat → Nat → Bool
  | .null, _, _ => false
  | .messageCount n, messagesWritten, _ => decide (n ≤ messagesWritten)
  | .fileSize b, _, bytesWritten => decide (b ≤ bytesWritten)

/-- Split at the last dot not in first position, modelling Node's
`path.extname` / `path.basename(path, ext)` for paths without
directory separators (the only shape the theorems use; for those,
`dirname` followed by `join` is the identity). -/
def splitExtChars (cs : List Char) : List Char × List Char :=
  match (cs.enum.filter fun p => p.2 == '.' && decide (0 < p.1)).getLast? with
  | none => (cs, [])
  | some (i, _) => (cs.take i, cs.drop i)

/-- String form of `splitExtChars`. -/
def splitExt (s : String) : String × String :=
  (String.mk (splitExtChars s.toList).1, String.mk (splitExtChars s.toList).2)

/-- Partition-name suffix `" [part N]"` with the 1-based partition
number. -/
def partSuffix (partitionIndex : Nat) : String :=
  " [part " ++ natToStr (partitionIndex + 1) ++ "]"

/-- `MessageExporter.getPartitionFilePath`: partition 0 keeps the base
path unchanged, partition `i ≥ 1` injects `" [part i+1]"` before the
extension. -/
def getPartitionFilePath (basePath : String) (partitionIndex : Nat) : String :=
  if partitionIndex = 0 then basePath
  else (splitExt basePath).1 ++ partSuffix partitionIndex ++ (splitExt basePath).2

/-- State of the currently open format writer: its file path, the
entries written, and the `messagesWritten` / `bytesWritten`
counters. -/
structure WriterState where
  path : String
  entries : List Entry
  messagesWritten : Nat
  bytesWritten : Nat
  deriving DecidableEq

/-- State of a `MessageExporter` (`src/unnamed/part_027`): current
partition index, optional open writer, messages exported, and the
closed files in closing order. -/
structure ExporterState where
  partitionIndex : Nat
  writer : Option WriterState
  messagesExported : Nat
  files : List (String × List Entry)
  deriving DecidableEq

/-- Fresh exporter. -/
def initialExporterState : ExporterState := ⟨0, none, 0, []⟩

/-- `MessageExporter.uninitializeWriter`: write the postamble, close
the file and clear the writer. -/
def uninitializeWriter (st : ExporterState) : ExporterState :=
  match st.writer with
  | none => st
  | some w =>
    { st with
      writer := none
      files := st.files ++ [(w.path, w.entries ++ [Entry.postamble])] }

/-- `MessageExporter.initializeWriter`: close the writer and advance
the partition when the limit is reached, then (re)open a writer for
the current partition, writing the preamble. -/
def initializeWriter (limit : PartitionLimit) (basePath : String)
    (st : ExporterState) : ExporterState :=
  let st1 :=
    match st.writer with
    | some w =>
      if limit.isReached w.messagesWritten w.bytesWritten then
        let st2 := uninitializeWriter st
        { st2 with partitionIndex := st2.partitionIndex + 1 }
      else st
    | none => st
  match st1.writer with
  | some _ => st1
  | none =>
    { st1 with
      writer := some ⟨getPartitionFilePath basePath st1.partitionIndex, [Entry.preamble], 0, 0⟩ }

/-- `MessageExporter.exportMessage`: ensure a writer, append the
message and bump the counters. -/
def exportMessage (limit : PartitionLimit) (basePath : String)
    (st : ExporterState) (m : Msg) : ExporterState :=
  let st1 := initializeWriter limit basePath st
  match st1.writer with
  | none => st1
  | some w =>
    { st1 with
      writer := some { w with
        entries := w.entries ++ [Entry.message m.id]
        messagesWritten := w.messagesWritten + 1
        bytesWritten := w.bytesWritten + m.byteSize }
      messagesExported := st1.messagesExported + 1 }

/-- `MessageExporter.dispose`: when nothing was exported force an empty
file (preamble only), then close the writer. -/
def disposeExporter (limit : PartitionLimit) (basePath : String)
    (st : ExporterState) : ExporterState :=
  uninitializeWriter (if st.messagesExported = 0 then initializeWriter limit basePath st else st)

/-- Run of the exporter over a message list followed by `dispose`. -/
def runExport (limit : PartitionLimit) (basePath : String) (msgs : List Msg) : ExporterState :=
  disposeExporter limit basePath (msgs.foldl (exportMessage limit basePath) initialExporterState)

/-- C4: with partition limit `MessageCount(3)` and exactly four
messages exported, exactly two files are produced: the first keeps the
base path and holds the first three messages, the second is the base
path with `" [part 2]"` injected before the extension and holds the
remaining message; each file carries its preamble and postamble. -/
theorem c4_partition_rollover (m1 m2 m3 m4 : Msg) (basePath stem ext : String)
    (h : splitExt basePath = (stem, ext)) :
    (runExport (.messageCount 3) basePath [m1, m2, m3, m4]).files
      = [(basePath,
            [Entry.preamble, Entry.message m1.id, Entry.message m2.id,
              Entry.message m3.id, Entry.postamble]),
         (stem ++ " [part 2]" ++ ext,
            [Entry.preamble, Entry.message m4.id, Entry.postamble])] := by
  have hps : partSuffix 1 = " [part 2]" := rfl
  have hsp1 : (splitExt basePath).1 = stem := by rw [h]
  have hsp2 : (splitExt basePath).2 = ext := by rw [h]
  simp [runExport, disposeExporter, exportMessage, initializeWriter, uninitializeWriter,
    initialExporterState, PartitionLimit.isReached, getPartitionFilePath, hsp1, hsp2, hps]

/-- C4 witness: the rollover theorem applied to four concrete messages
and the base path `export.txt`, whose extension split is computed by
`decide`. -/
theorem c4_partition_rollover_witness :
    (runExport (.messageCount 3) "export.txt"
        [⟨1, 0, false, 0, exUser, "", [], [], [], [], [], false, 5⟩,
         ⟨2, 0, false, 0, exUser, "", [], [], [], [], [], false, 5⟩,
         ⟨3, 0, false, 0, exUser, "", [], [], [], [], [], false, 5⟩,
         ⟨4, 0, false, 0, exUser, "", [], [], [], [], [], false, 5⟩]).files
      = [("export.txt",
            [Entry.preamble, Entry.message 1, Entry.message 2,
              Entry.message 3, Entry.postamble]),
         ("export" ++ " [part 2]" ++ ".txt",
            [Entry.preamble, Entry.message 4, Entry.postamble])] :=
  c4_partition_rollover _ _ _ _ "export.txt" "export" ".txt" (by decide)

/-- Channel restricted to the fields `exportChannel` consults
(`Channel` in `src/src/discord/index.ts`): id, kind (the
`ChannelKind` enum value; `GuildForum = 15`), and the optional id of
the last message. -/
structure Channel where
  id : Nat
  kind : Nat
  lastMessageId : Option Nat
  deriving DecidableEq

/-- `Channel.isEmpty`: no last message. -/
def Channel.isEmpty (c : Channel) : Bool := c.lastMessageId.isNone

/-- `Channel.mayHaveMessagesAfter`: not empty, and the cursor is below
the last message id. -/
def Channel.mayHaveMessagesAfter (c : Channel) (messageId : Nat) : Bool :=
  match c.lastMessageId with
  | none => false
  | some last => decide (messageId < last)

/-- `Channel.mayHaveMessagesBefore`: not empty, and the cursor is above
the channel id. -/
def Channel.mayHaveMessagesBefore (c : Channel) (messageId : Nat) : Bool :=
  match c.lastMessageId with
  | none => false
  | some _ => decide (c.id < messageId)

/-- Export request restricted to what `ChannelExporter.exportChannel`
consults: the channel, the optional boundaries, the filter, the
partition limit and the output file path. -/
structure ExportRequest where
  channel : Channel
  after : Option Nat
  before : Option Nat
  messageFilter : MessageFilter
  partitionLimit : PartitionLimit
  outputFilePath : String

/-- Domain-error kinds raised by `exportChannel`. -/
inductive ExportErrorKind where
  | unsupportedChannel
  | channelEmpty
  deriving DecidableEq

/-- Domain error with the `isFatal` flag of
`DiscordChatExporterError`; `UnsupportedChannelError` is constructed
fatal, `ChannelEmptyError` non-fatal. -/
structure ExportError where
  kind : ExportErrorKind
  isFatal : Bool
  deriving DecidableEq

/-- `ChannelExporter.exportChannel`: reject forum channels before any
file is created; otherwise create the exporter and, inside
try/finally, raise `ChannelEmptyError` for an empty channel or an
empty requested range, else filter and export the message stream
(batching only affects member fetches, not the writer); the `finally`
always disposes the exporter, which materialises an empty
preamble+postamble file when nothing was written.  Returns the files
written and the error raised, if any. -/
def exportChannel (req : ExportRequest) (stream : List Msg) :
    List (String × List Entry) × Option ExportError :=
  if req.channel.kind = 15 then ([], some ⟨.unsupportedChannel, true⟩)
  else
    if req.channel.isEmpty then
      ((disposeExporter req.partitionLimit req.outputFilePath initialExporterState).files,
        some ⟨.channelEmpty, false⟩)
    else if (match req.before with
          | some b => !req.channel.mayHaveMessagesBefore b
          | none => false)
        || (match req.after with
          | some a => !req.channel.mayHaveMessagesAfter a
          | none => false) then
      ((disposeExporter req.partitionLimit req.outputFilePath initialExporterState).files,
        some ⟨.channelEmpty, false⟩)
    else
      ((disposeExporter req.partitionLimit req.outputFilePath
          (stream.foldl
            (fun st m =>
              if req.messageFilter.isMatch m then
                exportMessage req.partitionLimit req.outputFilePath st m
              else st)
            initialExporterState)).files,
        none)

/-- C3: for a non-forum channel with `lastMessageId = null`,
`exportChannel` raises `ChannelEmptyError` with `isFatal = false` and
still produces exactly one output file, at the base path, containing
only the preamble and the postamble. -/
theorem c3_empty_channel (req : ExportRequest) (stream : List Msg)
    (hk : req.channel.kind ≠ 15) (he : req.channel.lastMessageId = none) :
    exportChannel req stream
      = ([(req.outputFilePath, [Entry.preamble, Entry.postamble])],
          some ⟨ExportErrorKind.channelEmpty, false⟩) := by
  simp [exportChannel, hk, Channel.isEmpty, he, disposeExporter, initializeWriter,
    uninitializeWriter, initialExporterState, getPartitionFilePath]

/-- C3 witness: the empty-channel theorem applied to a concrete DM-text
channel with no last message. -/
theorem c3_empty_channel_witness :
    exportChannel ⟨⟨9, 0, none⟩, none, none, MessageFilter.null, PartitionLimit.null, "out.txt"⟩ []
      = ([("out.txt", [Entry.preamble, Entry.postamble])],
          some ⟨ExportErrorKind.channelEmpty, false⟩) :=
  c3_empty_channel ⟨⟨9, 0, none⟩, none, none, MessageFilter.null, PartitionLimit.null, "out.txt"⟩
    [] (by decide) rfl

/-- `Message.isEmpty` from the `Message` constructor: blank content and
no attachments, embeds or stickers (a string is falsy-or-blank exactly
when all of its characters are whitespace). -/
def Msg.isEmptyMsg (m : Msg) : Bool :=
  m.content.toList.all isJsSpace
    && m.attachments.length == 0
    && m.embeds.length == 0
    && m.stickers.length == 0

/-- `Snowflake.toDate` in milliseconds: the value shifted right by 22
bits plus the Discord epoch. -/
def snowflakeToTsMillis (v : Nat) : Int :=
  ((v >>> 22 : Nat) : Int) + 1420070400000

/-- Pagination loop of `DiscordClient.getMessages`
(`src/unnamed/part_025`) against an abstract upstream: `pages cursor`
is the (newest-first) page the API returns for
`limit=100&after=cursor`.  Per iteration the page is reversed; an
empty page ends the stream; a page of all-empty messages under a bot
token without the content intent aborts with a fatal error (the `Bool`
of the result); messages are emitted while their timestamp does not
exceed the probed last message's, and one beyond it ends the stream;
after a full page the cursor advances to the id of the last emitted
message.  The fuel only bounds the unbounded source loop and is
irrelevant on terminating runs. -/
def getMessagesLoop (pages : Nat → List Msg) (botNoIntent : Bool) (lastTs : Int) :
    Nat → Nat → List Msg × Bool
  | 0, _ => ([], false)
  | fuel + 1, cursor =>
    let page := (pages cursor).reverse
    if page.isEmpty then ([], false)
    else if page.all Msg.isEmptyMsg && botNoIntent then ([], true)
    else
      let emitted := page.takeWhile fun m => decide (m.tsMillis ≤ lastTs)
      if emitted.length < page.length then (emitted, false)
      else
        match emitted.getLast? with
        | none => ([], false)
        | some lastMsg =>
          let rest := getMessagesLoop pages botNoIntent lastTs fuel lastMsg.id
          (emitted ++ rest.1, rest.2)

/-- `DiscordClient.getMessages`: nothing is emitted when the probed
last message is missing or lies before the `after` boundary; otherwise
the pagination loop starts at the `after` cursor (or zero).
`lastMessage` stands for the result of `tryGetLastMessage`, a separate
single-item request; `botNoIntent` for "the token resolves to Bot and
the application lacks the message-content intent". -/
def getMessages (pages : Nat → List Msg) (botNoIntent : Bool)
    (lastMessage : Option Msg) (after : Option Nat) (fuel : Nat) : List Msg × Bool :=
  match lastMessage with
  | none => ([], false)
  | some lm =>
    match after with
    | some a =>
      if lm.tsMillis < snowflakeToTsMillis a then ([], false)
      else getMessagesLoop pages botNoIntent lm.tsMillis fuel a
    | none => getMessagesLoop pages botNoIntent lm.tsMillis fuel 0

theorem getLast?_mem_list {α} (l : List α) (a : α) (h : l.getLast? = some a) : a ∈ l := by
  have hne : l ≠ [] := by
    intro hc
    rw [hc] at h
    simp at h
  rw [List.getLast?_eq_getLast l hne] at h
  injection h with h2
  rw [← h2]
  exact List.getLast_mem _

theorem pairwise_le_getLast :
    ∀ l : List Msg, (l.Pairwise fun a b => a.id < b.id) →
      ∀ lastM : Msg, l.getLast? = some lastM → ∀ x ∈ l, x.id ≤ lastM.id := by
  intro l
  induction l with
  | nil => intro _ lastM h; simp at h
  | cons a t ih =>
    intro hs lastM hl x hx
    obtain ⟨ha, ht⟩ := List.pairwise_cons.mp hs
    cases t with
    | nil =>
      simp at hl hx
      rw [hx, ← hl]
    | cons b t2 =>
      rw [List.getLast?_cons_cons] at hl
      rcases List.mem_cons.mp hx with hx1 | hx1
      · have hmem : lastM ∈ b :: t2 := getLast?_mem_list _ _ hl
        rw [hx1]
        exact le_of_lt (ha lastM hmem)
      · exact ih ht lastM hl x hx1

theorem getMessagesLoop_ascending (pages : Nat → List Msg) (bni : Bool) (lastTs : Int)
    (hdesc : ∀ c, (pages c).Pairwise fun a b => b.id < a.id)
    (hgt : ∀ c, ∀ m ∈ pages c, c < m.id) :
    ∀ fuel cursor,
      ((getMessagesLoop pages bni lastTs fuel cursor).1.Pairwise fun a b => a.id < b.id)
        ∧ ∀ m ∈ (getMessagesLoop pages bni lastTs fuel cursor).1, cursor < m.id := by
  intro fuel
  induction fuel with
  | zero => intro cursor; simp [getMessagesLoop]
  | succ fuel ih =>
    intro cursor
    simp only [getMessagesLoop]
    by_cases h1 : ((pages cursor).reverse.isEmpty) = true
    · simp [h1]
    · rw [if_neg h1]
      by_cases h2 : ((pages cursor).reverse.all Msg.isEmptyMsg && bni) = true
      · rw [if_pos h2]
        simp
      · rw [if_neg h2]
        have hsorted : (pages cursor).reverse.Pairwise fun a b => a.id < b.id := by
          rw [List.pairwise_reverse]
          exact hdesc cursor
        have hmem_page : ∀ m ∈ (pages cursor).reverse, cursor < m.id := by
          intro m hm
          exact hgt cursor m (List.mem_reverse.mp hm)
        have hsub : List.Sublist
            ((pages cursor).reverse.takeWhile fun m => decide (m.tsMillis ≤ lastTs))
            (pages cursor).reverse := List.takeWhile_sublist _
        have hesorted :
            ((pages cursor).reverse.takeWhile fun m => decide (m.tsMillis ≤ lastTs)).Pairwise
              fun a b => a.id < b.id := hsorted.sublist hsub
        have hemem : ∀ m ∈ (pages cursor).reverse.takeWhile fun m => decide (m.tsMillis ≤ lastTs),
            cursor < m.id := fun m hm => hmem_page m (hsub.mem hm)
        by_cases h3 : ((pages cursor).reverse.takeWhile fun m =>
            decide (m.tsMillis ≤ lastTs)).length < (pages cursor).reverse.length
        · rw [if_pos h3]
          exact ⟨hesorted, hemem⟩
        · rw [if_neg h3]
          cases hlast : ((pages cursor).reverse.takeWhile fun m =>
              decide (m.tsMillis ≤ lastTs)).getLast? with
          | none => simp
          | some lastMsg =>
            obtain ⟨ihs, ihm⟩ := ih lastMsg.id
            have hlastmem := getLast?_mem_list _ _ hlast
            have hle := pairwise_le_getLast _ hesorted lastMsg hlast
            constructor
            · rw [List.pairwise_append]
              refine ⟨hesorted, ihs, ?_⟩
              intro a ha b hb
              exact lt_of_le_of_lt (hle a ha) (ihm b hb)
            · intro m hm
              rcases List.mem_append.mp hm with hm1 | hm1
              · exact hemem m hm1
              · exact lt_trans (hemem lastMsg hlastmem) (ihm m hm1)

/-- C1 (amended): against an upstream whose pages are newest-first
(ids strictly descending) with every id beyond the cursor, (a) the
emitted stream is strictly ascending by id; (b) an empty page ends the
stream; and (c) after a full in-range page — which the loop emits
reversed — the loop continues with the cursor advanced to the id of
the page's last emitted item.  A short non-empty page does not by
itself end the stream; termination comes from the following empty page
or from a message beyond the probed last message's timestamp. -/
theorem c1_pagination_amended (pages : Nat → List Msg) (bni : Bool) (lastTs : Int)
    (hdesc : ∀ c, (pages c).Pairwise fun a b => b.id < a.id)
    (hgt : ∀ c, ∀ m ∈ pages c, c < m.id) :
    (∀ fuel cursor,
        (getMessagesLoop pages bni lastTs fuel cursor).1.Pairwise fun a b => a.id < b.id)
      ∧ (∀ fuel cursor, pages cursor = [] →
          getMessagesLoop pages bni lastTs (fuel + 1) cursor = ([], false))
      ∧ (∀ fuel cursor lastMsg,
          pages cursor ≠ [] →
          ¬((pages cursor).all Msg.isEmptyMsg = true ∧ bni = true) →
          (∀ m ∈ pages cursor, m.tsMillis ≤ lastTs) →
          (pages cursor).reverse.getLast? = some lastMsg →
          getMessagesLoop pages bni lastTs (fuel + 1) cursor
            = ((pages cursor).reverse ++ (getMessagesLoop pages bni lastTs fuel lastMsg.id).1,
                (getMessagesLoop pages bni lastTs fuel lastMsg.id).2)) := by
  refine ⟨fun fuel cursor => (getMessagesLoop_ascending pages bni lastTs hdesc hgt fuel cursor).1,
    ?_, ?_⟩
  · intro fuel cursor h
    simp [getMessagesLoop, h]
  · intro fuel cursor lastMsg hne hint hall hlast
    simp only [getMessagesLoop]
    rw [if_neg (by simp [hne])]
    rw [if_neg (by
      intro hc
      rcases Bool.and_eq_true _ _ |>.mp hc with ⟨hca, hcb⟩
      rw [List.all_reverse] at hca
      exact hint ⟨hca, hcb⟩)]
    have htake : ((pages cursor).reverse.takeWhile fun m => decide (m.tsMillis ≤ lastTs))
        = (pages cursor).reverse := by
      refine List.takeWhile_eq_self_iff.mpr ?_
      intro x hx
      simp only [decide_eq_true_eq]
      exact hall x (List.mem_reverse.mp hx)
    rw [htake]
    rw [if_neg (by omega)]
    rw [hlast]

/-- Message with the given id and timestamp for the C1 examples;
non-blank content keeps it non-empty. -/
def pMsg (i : Nat) (t : Int) : Msg :=
  ⟨i, 0, false, t, exUser, "x", [], [], [], [], [], false, 0⟩

/-- Upstream for the C1 counterexample: the first request returns a
short page of two messages (ids 2 and 1, newest first), the request
after id 2 returns one more message (id 3), and everything else is
empty. -/
def pagesShort : Nat → List Msg :=
  fun c => if c = 0 then [pMsg 2 2, pMsg 1 1] else if c = 2 then [pMsg 3 3] else []

theorem pagesShort_desc : ∀ c, (pagesShort c).Pairwise fun a b => b.id < a.id := by
  intro c
  by_cases h0 : c = 0
  · subst h0
    decide
  · by_cases h2 : c = 2
    · subst h2
      decide
    · simp [pagesShort, h0, h2]

theorem pagesShort_gt : ∀ c, ∀ m ∈ pagesShort c, c < m.id := by
  intro c m hm
  by_cases h0 : c = 0
  · subst h0
    simp only [pagesShort, if_pos rfl] at hm
    rcases List.mem_cons.mp hm with h | h
    · rw [h]; decide
    · rcases List.mem_cons.mp h with h3 | h3
      · rw [h3]; decide
      · simp at h3
  · by_cases h2 : c = 2
    · subst h2
      simp only [pagesShort] at hm
      rw [if_neg (by omega)] at hm
      have h : m = pMsg 3 3 := by simpa using hm
      rw [h]
      decide
    · simp [pagesShort, h0, h2] at hm

/-- C1 counterexample: the stream does not terminate on a short page.
The first page holds two messages (fewer than the 100 requested) yet
the stream goes on to request the next page and also emits the message
it returns: the result is `[1, 2, 3]`, not the reversed first page
`[1, 2]`. -/
theorem c1_short_page_counterexample :
    (pagesShort 0).length < 100
      ∧ pagesShort 0 ≠ []
      ∧ (getMessages pagesShort false (some (pMsg 3 3)) none 10).1
          = [pMsg 1 1, pMsg 2 2, pMsg 3 3]
      ∧ (getMessages pagesShort false (some (pMsg 3 3)) none 10).1 ≠ (pagesShort 0).reverse :=
  ⟨by decide, by decide, by decide, by decide⟩

/-- C1 witness: the amended pagination theorem applied to `pagesShort`:
the emitted stream ascends, the empty page at cursor 3 ends the
stream, and the full in-range page at cursor 0 is emitted reversed
with the loop continuing from id 2, the last emitted item. -/
theorem c1_pagination_amended_witness :
    ((getMessagesLoop pagesShort false 3 10 0).1.Pairwise fun a b => a.id < b.id)
      ∧ getMessagesLoop pagesShort false 3 (9 + 1) 3 = ([], false)
      ∧ getMessagesLoop pagesShort false 3 (9 + 1) 0
          = ((pagesShort 0).reverse ++ (getMessagesLoop pagesShort false 3 9 (pMsg 2 2).id).1,
              (getMessagesLoop pagesShort false 3 9 (pMsg 2 2).id).2) := by
  obtain ⟨ha, hb, hc⟩ := c1_pagination_amended pagesShort false 3 pagesShort_desc pagesShort_gt
  exact ⟨ha 10 0, hb 9 3 (by decide), hc 9 0 (pMsg 2 2) (by decide) (by decide) (by decide)
    (by decide)⟩

end DCE
